import Mathlib

/-!
Verification of the DDL25 wallet-ledger and settlement reporting code.

The development shallowly embeds the reporting computations of the
repository: the client financial ledger (both the forward-replay variant
and the wallet-anchored backward variant of the FinancialLedger
component), the admin mirror ledger (AdminWalletLedger component), and
the draw winners report (WinnersReport component, flat and grouped
variants).  Money amounts are embedded as exact rationals, timestamps as
natural numbers, and JavaScript array sorts as insertion sorts on the
same comparator key.
-/

namespace DDL25

/-- Direction of a wallet transaction, from the TransactionType enum:
Credit increases the client wallet, Debit decreases it. -/
inductive TransactionType where
  | Credit
  | Debit
deriving DecidableEq, Repr

/-- A ledger transaction record.  Fields follow the Transaction type used
by the components: owning client id, direction, non-negative amount, the
stored balance-after snapshot computed at append time, creation
timestamp, and the reversed flag. -/
structure Transaction where
  id : String
  clientId : String
  type : TransactionType
  amount : ℚ
  balanceAfter : ℚ
  createdAt : ℕ
  isReversed : Bool
deriving DecidableEq, Repr

/-- A bounded date range as produced by getDateRange for the filters
today / last7 / last30; membership is start ≤ t < stop.  The all-time
filter is represented by the absence of a range (Option.none), exactly
as getDateRange returns null for it. -/
structure DateRange where
  start : ℕ
  stop : ℕ
deriving DecidableEq, Repr

/-- Effective amount of a transaction as used by every reporting fold in
the source: reversed entries count as zero. -/
def amountEffect (tx : Transaction) : ℚ :=
  if tx.isReversed then 0 else tx.amount

/-- Signed wallet effect of a transaction: Credits add the effective
amount, Debits subtract it. -/
def signedEffect (tx : Transaction) : ℚ :=
  match tx.type with
  | TransactionType.Credit => amountEffect tx
  | TransactionType.Debit => -amountEffect tx

/-- Signed sum of a transaction list: Credits minus Debits over
non-reversed entries, reversed entries counting zero. -/
def signedSum (l : List Transaction) : ℚ :=
  (l.map signedEffect).sum

/-- Chronological comparison used by the source sorts on createdAt. -/
def byDateAsc (a b : Transaction) : Prop :=
  a.createdAt ≤ b.createdAt

instance : DecidableRel byDateAsc :=
  fun a b => inferInstanceAs (Decidable (a.createdAt ≤ b.createdAt))

/-- Reverse-chronological comparison used by the wallet-anchored ledger
variant, which sorts newest first. -/
def byDateDesc (a b : Transaction) : Prop :=
  b.createdAt ≤ a.createdAt

instance : DecidableRel byDateDesc :=
  fun a b => inferInstanceAs (Decidable (b.createdAt ≤ a.createdAt))

/-- All transactions of one client, sorted oldest to newest, as computed
in step 1 of the FinancialLedger useMemo. -/
def allClientTxs (transactions : List Transaction) (clientId : String) :
    List Transaction :=
  (transactions.filter (fun t => t.clientId == clientId)).insertionSort byDateAsc

/-- The last transaction strictly before the start of a period: the
source reverses the chronological list and takes the first entry whose
date is below range.start. -/
def lastTxBeforePeriod (sortedTxs : List Transaction) (r : DateRange) :
    Option Transaction :=
  sortedTxs.reverse.find? (fun tx => decide (tx.createdAt < r.start))

/-- Opening balance of the forward-replay FinancialLedger variant: zero
for the all-time filter; for a bounded range, the stored balance-after
snapshot of the last transaction before the period (zero when none
exists). -/
def periodOpeningBalance (sortedTxs : List Transaction)
    (range : Option DateRange) : ℚ :=
  match range with
  | none => 0
  | some r =>
    match lastTxBeforePeriod sortedTxs r with
    | some tx => tx.balanceAfter
    | none => 0

/-- Transactions inside the requested period (all of them for the
all-time filter). -/
def transactionsInPeriod (sortedTxs : List Transaction)
    (range : Option DateRange) : List Transaction :=
  match range with
  | none => sortedTxs
  | some r =>
    sortedTxs.filter
      (fun tx => decide (r.start ≤ tx.createdAt) && decide (tx.createdAt < r.stop))

/-- Forward replay of movements from an opening balance, attaching to
each transaction the running balance after it, exactly as the map in
step 3 of the FinancialLedger useMemo (and the admin ledger entry map). -/
def replayMovements (move : Transaction → ℚ) (opening : ℚ) :
    List Transaction → List (Transaction × ℚ)
  | [] => []
  | tx :: rest =>
    (tx, opening + move tx) :: replayMovements move (opening + move tx) rest

/-- Closing balance of a replayed entry list: the running balance of the
last entry, or the opening balance when the list is empty. -/
def closingOf (opening : ℚ) : List (Transaction × ℚ) → ℚ
  | [] => opening
  | e :: es => closingOf e.2 es

/-- Sum of the amounts of the non-reversed Credit transactions of a
list, as computed for the period summary. -/
def totalCreditOf (l : List Transaction) : ℚ :=
  ((l.filter (fun tx =>
      decide (tx.type = TransactionType.Credit) && !tx.isReversed)).map
    (fun tx => tx.amount)).sum

/-- Sum of the amounts of the non-reversed Debit transactions of a
list, as computed for the period summary. -/
def totalDebitOf (l : List Transaction) : ℚ :=
  ((l.filter (fun tx =>
      decide (tx.type = TransactionType.Debit) && !tx.isReversed)).map
    (fun tx => tx.amount)).sum

/-- The values a ledger view presents: the chronological entries with
their running balances, the opening and closing balances, and the period
credit and debit totals. -/
structure LedgerView where
  entries : List (Transaction × ℚ)
  openingBalance : ℚ
  closingBalance : ℚ
  totalCredit : ℚ
  totalDebit : ℚ
deriving DecidableEq, Repr

/-- The forward-replay FinancialLedger computation (first variant in the
source): sort the client transactions chronologically, determine the
period opening balance (zero for all time, otherwise the stored
balance-after of the last transaction before the period), replay the
in-period transactions to obtain running balances, and compute the
period totals over non-reversed entries. -/
def financialLedger (transactions : List Transaction) (clientId : String)
    (range : Option DateRange) : LedgerView :=
  let sortedTxs := allClientTxs transactions clientId
  let opening := periodOpeningBalance sortedTxs range
  let inPeriod := transactionsInPeriod sortedTxs range
  let entries := replayMovements signedEffect opening inPeriod
  { entries := entries
    openingBalance := opening
    closingBalance := closingOf opening entries
    totalCredit := totalCreditOf inPeriod
    totalDebit := totalDebitOf inPeriod }

/-- Filtered transactions of the wallet-anchored FinancialLedger variant
(second variant in the source): the client transactions sorted newest to
oldest, restricted to the requested period when one is given. -/
def filteredTransactions (transactions : List Transaction) (clientId : String)
    (range : Option DateRange) : List Transaction :=
  let clientTxs :=
    (transactions.filter (fun t => t.clientId == clientId)).insertionSort byDateDesc
  match range with
  | none => clientTxs
  | some r =>
    clientTxs.filter
      (fun tx => decide (r.start ≤ tx.createdAt) && decide (tx.createdAt < r.stop))

/-- Backward walk of the wallet-anchored variant: each transaction of
the newest-first list is displayed with the running balance before the
walk undoes its effect, starting from the current wallet balance. -/
def correctedBalances (wallet : ℚ) : List Transaction → List (Transaction × ℚ)
  | [] => []
  | tx :: rest => (tx, wallet) :: correctedBalances (wallet - signedEffect tx) rest

/-- The detailed transaction list of the wallet-anchored FinancialLedger
variant: corrected balances anchored at the current wallet balance over
the newest-first filtered transactions. -/
def detailedTransactions (transactions : List Transaction) (clientId : String)
    (range : Option DateRange) (wallet : ℚ) : List (Transaction × ℚ) :=
  correctedBalances wallet (filteredTransactions transactions clientId range)

/-- Mirrored movement of one client transaction on the admin wallet, as
computed by the AdminWalletLedger component: the effective amount is
zero for reversed entries, a client Credit moves the admin balance by
minus that amount, a client Debit by plus that amount. -/
def adminMovement (tx : Transaction) : ℚ :=
  let amount := if tx.isReversed then 0 else tx.amount
  match tx.type with
  | TransactionType.Credit => -amount
  | TransactionType.Debit => amount

/-- All transactions of the whole system sorted chronologically, as in
the AdminWalletLedger useMemo. -/
def sortedByDate (transactions : List Transaction) : List Transaction :=
  transactions.insertionSort byDateAsc

/-- Net mirrored movement of every transaction in the system. -/
def totalNetMovement (transactions : List Transaction) : ℚ :=
  ((sortedByDate transactions).map adminMovement).sum

/-- Whether a transaction is counted into the admin period (at or after
the range start; every transaction when there is no range). -/
def adminInPeriod (range : Option DateRange) (tx : Transaction) : Bool :=
  match range with
  | none => true
  | some r => decide (r.start ≤ tx.createdAt)

/-- Whether a transaction falls before the end of the admin range (every
transaction when there is no range). -/
def beforeStop (range : Option DateRange) (tx : Transaction) : Bool :=
  match range with
  | none => true
  | some r => decide (tx.createdAt < r.stop)

/-- The AdminWalletLedger computation: the admin wallet at the start of
time is the current wallet minus the total net mirrored movement; the
period opening balance adds back the movements before the period; the
entries replay the mirrored movements of the in-period transactions. -/
def adminLedger (transactions : List Transaction) (currentWallet : ℚ)
    (range : Option DateRange) : LedgerView :=
  let allTxs := sortedByDate transactions
  let startOfTime := currentWallet - totalNetMovement transactions
  let opening := startOfTime +
    ((allTxs.filter (fun tx => !adminInPeriod range tx)).map adminMovement).sum
  let inPeriod := (allTxs.filter (adminInPeriod range)).filter (beforeStop range)
  let entries := replayMovements adminMovement opening inPeriod
  { entries := entries
    openingBalance := opening
    closingBalance := closingOf opening entries
    totalCredit := (inPeriod.map
      (fun tx => if 0 < adminMovement tx then adminMovement tx else 0)).sum
    totalDebit := (inPeriod.map
      (fun tx => if adminMovement tx < 0 then -adminMovement tx else 0)).sum }

/-- Modelled from the spec: the canonical backward reconstruction of a
ranged opening balance (section 4.6), whose implementation is absent
from the sources in scope.  Starting from the current true wallet
balance, the effect of every transaction at or after the period start is
undone (a Credit subtracted back, a Debit added back, reversed entries
counting zero), yielding the balance immediately after the last
transaction before the period. -/
def specPeriodOpeningBalance (wallet : ℚ) (clientTxs : List Transaction)
    (r : DateRange) : ℚ :=
  wallet -
    ((clientTxs.filter (fun tx => decide (r.start ≤ tx.createdAt))).map
      signedEffect).sum

/-- Mirror rule exactly as the claim words it, for comparison with the
adminMovement of the source: a movement of minus the amount for a
Credit, plus the amount for a Debit, and exactly zero when the reversed
flag is set. -/
def specMirrorMovement (tx : Transaction) : ℚ :=
  if tx.isReversed then 0
  else
    match tx.type with
    | TransactionType.Credit => -tx.amount
    | TransactionType.Debit => tx.amount

/-- Payout rate for one win condition.  The source reads the first or
second field of a PrizeRate record and checks it is a number; a missing
field is embedded as Option.none. -/
structure PrizeRate where
  first : Option ℚ
  second : Option ℚ
deriving DecidableEq, Repr

/-- Per-client rate table.  Flat entries are keyed by the game type (a
string enum value in the source); positional entries are keyed by digit
count.  Both lookups are embedded as association lists, with absent keys
standing for undefined object properties. -/
structure PrizeRates where
  flat : List (String × PrizeRate)
  positional : List (ℕ × PrizeRate)
deriving DecidableEq, Repr

/-- A client record with the fields the reports read: internal id,
display id, username, current wallet balance, and the optional per-client
rate table. -/
structure Client where
  id : String
  clientId : String
  username : String
  wallet : ℚ
  prizeRates : Option PrizeRates
deriving DecidableEq, Repr

/-- Win condition of a bet, from the BettingCondition enum. -/
inductive BettingCondition where
  | First
  | Second
deriving DecidableEq, Repr

/-- Distinguished game-type value for the positional game, matching the
GameType.Positional enum member of the source. -/
def positionalGameType : String := "POSITIONAL"

/-- A bet record with the fields the winners report reads. -/
structure Bet where
  id : String
  clientId : String
  gameType : String
  condition : BettingCondition
  number : String
  stake : ℚ
deriving DecidableEq, Repr

/-- Lookup in the client map built from the clients list.  A JavaScript
Map keeps the last entry written for a key, so the reversed list is
searched first to last. -/
def clientMapGet (clients : List Client) (id : String) : Option Client :=
  clients.reverse.find? (fun c => c.id == id)

/-- Number of digit characters in the chosen number string, as computed
by matching the digit character class globally. -/
def digitCount (s : String) : ℕ :=
  (s.toList.filter Char.isDigit).length

/-- The rate stored for a condition inside a PrizeRate record, if any. -/
def rateForCondition (pr : PrizeRate) : BettingCondition → Option ℚ
  | BettingCondition.First => pr.first
  | BettingCondition.Second => pr.second

/-- Rate resolved from the positional rate table by digit count and
condition; zero when the digit-count entry or the condition value is
missing, matching the undefined-propagation of the source. -/
def positionalRateFor (rates : PrizeRates) (n : ℕ) (c : BettingCondition) : ℚ :=
  match (rates.positional.find? (fun e => e.1 == n)).map Prod.snd with
  | none => 0
  | some pr =>
    match rateForCondition pr c with
    | none => 0
    | some r => r

/-- Rate resolution of the winners report: for the positional game type
the table is keyed by the digit count of the chosen number and the
condition, otherwise by the game type and the condition; any missing
entry leaves the rate at zero. -/
def resolveRate (rates : PrizeRates) (bet : Bet) : ℚ :=
  if bet.gameType == positionalGameType then
    match (rates.positional.find? (fun e => e.1 == digitCount bet.number)).map
        Prod.snd with
    | none => 0
    | some pr =>
      match rateForCondition pr bet.condition with
      | none => 0
      | some r => r
  else
    match (rates.flat.find? (fun e => e.1 == bet.gameType)).map Prod.snd with
    | none => 0
    | some pr =>
      match rateForCondition pr bet.condition with
      | none => 0
      | some r => r

/-- One winning bet of the report with its owner and prize. -/
structure WinningBetDetail where
  bet : Bet
  client : Client
  prizeWon : ℚ
deriving DecidableEq, Repr

/-- Outcome of one bet in the winners loop: skipped unless the win
predicate holds, the owner is found, a rate table exists, and the
resolved rate is positive; otherwise a detail record whose prize is the
stake times the rate over one hundred.  The win predicate stands for the
isBetWinner helper, which is outside the sources in scope. -/
def settleBet (isWin : Bet → Bool) (clients : List Client) (bet : Bet) :
    Option WinningBetDetail :=
  if isWin bet then
    match clientMapGet clients bet.clientId with
    | none => none
    | some client =>
      match client.prizeRates with
      | none => none
      | some rates =>
        let rate := resolveRate rates bet
        if 0 < rate then
          some { bet := bet, client := client, prizeWon := bet.stake * (rate / 100) }
        else none
  else none

/-- The winners list of the report: every bet of the draw that settles
to a prize-bearing detail record, in bet order. -/
def winnersData (isWin : Bet → Bool) (clients : List Client)
    (drawBets : List Bet) : List WinningBetDetail :=
  drawBets.filterMap (settleBet isWin clients)

/-- Total payout accumulated by the winners loop. -/
def totalPayout (isWin : Bet → Bool) (clients : List Client)
    (drawBets : List Bet) : ℚ :=
  ((winnersData isWin clients drawBets).map (fun w => w.prizeWon)).sum

/-- One client group of the grouped winners report. -/
structure GroupedWinner where
  client : Client
  totalWon : ℚ
  bets : List (Bet × ℚ)
deriving DecidableEq, Repr

/-- Adds one winning bet to the group of its client: the prize is added
to the group total and the bet appended to the group list. -/
def updateGroup (w : WinningBetDetail) (g : GroupedWinner) : GroupedWinner :=
  if g.client.id == w.client.id then
    { client := g.client
      totalWon := g.totalWon + w.prizeWon
      bets := g.bets ++ [(w.bet, w.prizeWon)] }
  else g

/-- Folds one winning bet into the group map: an existing group of the
same client id is updated in place, otherwise a fresh group is appended,
matching the insertion-ordered Map of the source. -/
def addToGroups (groups : List GroupedWinner) (w : WinningBetDetail) :
    List GroupedWinner :=
  if groups.any (fun g => g.client.id == w.client.id) then
    groups.map (updateGroup w)
  else
    groups ++ [{ client := w.client, totalWon := w.prizeWon,
                 bets := [(w.bet, w.prizeWon)] }]

/-- Descending comparison on the total won, used to sort the groups for
display. -/
def byWonDesc (a b : GroupedWinner) : Prop :=
  b.totalWon ≤ a.totalWon

instance : DecidableRel byWonDesc :=
  fun a b => inferInstanceAs (Decidable (b.totalWon ≤ a.totalWon))

/-- The grouped winners report: the winners list folded into per-client
groups, sorted by total won descending. -/
def groupedWinners (isWin : Bet → Bool) (clients : List Client)
    (drawBets : List Bet) : List GroupedWinner :=
  ((winnersData isWin clients drawBets).foldl addToGroups []).insertionSort byWonDesc

/-! Helper lemmas about the replay fold. -/

theorem replayMovements_map_fst (move : Transaction → ℚ) :
    ∀ (opening : ℚ) (l : List Transaction),
      (replayMovements move opening l).map Prod.fst = l := by
  intro opening l
  induction l generalizing opening with
  | nil => simp [replayMovements]
  | cons tx rest ih => simp [replayMovements, ih]

theorem closingOf_replay (move : Transaction → ℚ) :
    ∀ (l : List Transaction) (opening : ℚ),
      closingOf opening (replayMovements move opening l) =
        opening + (l.map move).sum := by
  intro l
  induction l with
  | nil => intro opening; simp [replayMovements, closingOf]
  | cons tx rest ih =>
    intro opening
    simp only [replayMovements, closingOf, List.map_cons, List.sum_cons]
    rw [ih]
    ring

theorem signedSum_eq_credit_sub_debit :
    ∀ l : List Transaction,
      (l.map signedEffect).sum = totalCreditOf l - totalDebitOf l := by
  intro l
  induction l with
  | nil => simp [totalCreditOf, totalDebitOf]
  | cons tx rest ih =>
    rcases htype : tx.type <;> rcases hrev : tx.isReversed <;>
      simp only [totalCreditOf, totalDebitOf, List.map_cons, List.sum_cons,
        List.filter_cons, htype, hrev, signedEffect, amountEffect,
        decide_True, decide_False, Bool.not_true, Bool.not_false,
        Bool.and_true, Bool.and_false, if_true, if_false] <;>
      simp only [totalCreditOf, totalDebitOf] at ih <;>
      simp_all <;> ring

/-- C9: for every client and every period filter, the forward-replay
client ledger view satisfies the accounting identity
closingBalance = openingBalance + totalCredit − totalDebit, the totals
summing the non-reversed Credit and Debit amounts inside the period and
the closing balance being the running balance after the last in-period
transaction (the opening balance when the period is empty). -/
theorem ledger_accounting_identity (transactions : List Transaction)
    (clientId : String) (range : Option DateRange) :
    (financialLedger transactions clientId range).closingBalance =
      (financialLedger transactions clientId range).openingBalance +
        (financialLedger transactions clientId range).totalCredit -
        (financialLedger transactions clientId range).totalDebit := by
  simp only [financialLedger]
  rw [closingOf_replay, signedSum_eq_credit_sub_debit]
  ring

/-- C9 witness: the accounting identity evaluated on a concrete ledger
with a reversed credit inside the period. -/
theorem ledger_accounting_identity_witness :
    (financialLedger
        [⟨"t1", "c1", TransactionType.Credit, 100, 100, 1, false⟩,
         ⟨"t2", "c1", TransactionType.Debit, 30, 70, 2, false⟩,
         ⟨"t3", "c1", TransactionType.Credit, 45, 115, 3, true⟩]
        "c1" (some ⟨2, 9⟩)).closingBalance =
      (financialLedger
        [⟨"t1", "c1", TransactionType.Credit, 100, 100, 1, false⟩,
         ⟨"t2", "c1", TransactionType.Debit, 30, 70, 2, false⟩,
         ⟨"t3", "c1", TransactionType.Credit, 45, 115, 3, true⟩]
        "c1" (some ⟨2, 9⟩)).openingBalance +
        (financialLedger
        [⟨"t1", "c1", TransactionType.Credit, 100, 100, 1, false⟩,
         ⟨"t2", "c1", TransactionType.Debit, 30, 70, 2, false⟩,
         ⟨"t3", "c1", TransactionType.Credit, 45, 115, 3, true⟩]
        "c1" (some ⟨2, 9⟩)).totalCredit -
        (financialLedger
        [⟨"t1", "c1", TransactionType.Credit, 100, 100, 1, false⟩,
         ⟨"t2", "c1", TransactionType.Debit, 30, 70, 2, false⟩,
         ⟨"t3", "c1", TransactionType.Credit, 45, 115, 3, true⟩]
        "c1" (some ⟨2, 9⟩)).totalDebit :=
  ledger_accounting_identity _ _ _

/-- C1: when the current wallet balance equals the signed sum of the
non-reversed transactions of the client, the all-time forward-replay
ledger view opens at zero and closes exactly at that wallet balance. -/
theorem allTime_ledger_roundtrip (transactions : List Transaction)
    (clientId : String) (wallet : ℚ)
    (h : wallet = signedSum (transactions.filter (fun t => t.clientId == clientId))) :
    (financialLedger transactions clientId none).openingBalance = 0 ∧
    (financialLedger transactions clientId none).closingBalance = wallet := by
  constructor
  · simp [financialLedger, periodOpeningBalance]
  · simp only [financialLedger, periodOpeningBalance, transactionsInPeriod,
      allClientTxs]
    rw [closingOf_replay, h]
    simp only [signedSum, zero_add]
    exact ((List.perm_insertionSort byDateAsc _).map signedEffect).sum_eq

/-- C1 witness: the round trip evaluated on a concrete two-transaction
history whose wallet is the signed sum fifty. -/
theorem allTime_ledger_roundtrip_witness :
    ((50 : ℚ) =
      signedSum
        (([⟨"t1", "c1", TransactionType.Credit, 100, 100, 1, false⟩,
           ⟨"t2", "c1", TransactionType.Debit, 50, 50, 2, false⟩] :
          List Transaction).filter (fun t => t.clientId == "c1"))) ∧
    (financialLedger
        [⟨"t1", "c1", TransactionType.Credit, 100, 100, 1, false⟩,
         ⟨"t2", "c1", TransactionType.Debit, 50, 50, 2, false⟩]
        "c1" none).openingBalance = 0 ∧
    (financialLedger
        [⟨"t1", "c1", TransactionType.Credit, 100, 100, 1, false⟩,
         ⟨"t2", "c1", TransactionType.Debit, 50, 50, 2, false⟩]
        "c1" none).closingBalance = 50 :=
  ⟨by norm_num [signedSum, signedEffect, amountEffect, List.filter],
   (allTime_ledger_roundtrip _ "c1" 50
     (by norm_num [signedSum, signedEffect, amountEffect, List.filter])).1,
   (allTime_ledger_roundtrip _ "c1" 50
     (by norm_num [signedSum, signedEffect, amountEffect, List.filter])).2⟩

theorem adminInPeriod_none : adminInPeriod none = fun _ => true := rfl

theorem beforeStop_none : beforeStop none = fun _ => true := rfl

/-- C4: for the all-time filter the admin mirror ledger opens at the
current admin wallet minus the total net mirrored movement, and its
closing balance returns exactly to the current admin wallet: replaying
every mirrored movement forward produces zero net drift. -/
theorem admin_allTime_closing (transactions : List Transaction)
    (currentWallet : ℚ) :
    (adminLedger transactions currentWallet none).openingBalance =
      currentWallet - totalNetMovement transactions ∧
    (adminLedger transactions currentWallet none).closingBalance =
      currentWallet := by
  constructor
  · simp [adminLedger, adminInPeriod]
  · simp only [adminLedger, adminInPeriod_none, beforeStop_none,
      List.filter_true, Bool.not_true, List.filter_false, List.map_nil,
      List.sum_nil, add_zero]
    rw [closingOf_replay]
    simp only [totalNetMovement]
    ring

/-- C4 witness: the admin round trip evaluated on a concrete system
history containing a reversed credit and transactions of two clients. -/
theorem admin_allTime_closing_witness :
    (adminLedger
        [⟨"t1", "c1", TransactionType.Debit, 50, 50, 1, false⟩,
         ⟨"t2", "c2", TransactionType.Credit, 45, 45, 2, true⟩,
         ⟨"t3", "c2", TransactionType.Debit, 20, 25, 3, false⟩]
        1000 none).openingBalance =
      1000 - totalNetMovement
        [⟨"t1", "c1", TransactionType.Debit, 50, 50, 1, false⟩,
         ⟨"t2", "c2", TransactionType.Credit, 45, 45, 2, true⟩,
         ⟨"t3", "c2", TransactionType.Debit, 20, 25, 3, false⟩] ∧
    (adminLedger
        [⟨"t1", "c1", TransactionType.Debit, 50, 50, 1, false⟩,
         ⟨"t2", "c2", TransactionType.Credit, 45, 45, 2, true⟩,
         ⟨"t3", "c2", TransactionType.Debit, 20, 25, 3, false⟩]
        1000 none).closingBalance = 1000 :=
  admin_allTime_closing _ 1000

/-- C3: the movement the admin mirror ledger assigns to a client
transaction is minus the amount for a Credit, plus the amount for a
Debit, and exactly zero for a reversed entry; and for the all-time view
the admin ledger entries are exactly the replay fold of these mirrored
movements over the chronologically sorted client transactions, with no
entry of any other origin. -/
theorem admin_mirror_rule :
    (∀ tx : Transaction, adminMovement tx = specMirrorMovement tx) ∧
    (∀ (transactions : List Transaction) (currentWallet : ℚ),
      (adminLedger transactions currentWallet none).entries.map Prod.fst =
        sortedByDate transactions ∧
      (adminLedger transactions currentWallet none).entries =
        replayMovements adminMovement
          (adminLedger transactions currentWallet none).openingBalance
          (sortedByDate transactions)) := by
  constructor
  · intro tx
    rcases htype : tx.type <;> rcases hrev : tx.isReversed <;>
      simp [adminMovement, specMirrorMovement, htype, hrev]
  · intro transactions currentWallet
    constructor
    · simp [adminLedger, adminInPeriod, beforeStop, replayMovements_map_fst]
    · simp [adminLedger, adminInPeriod, beforeStop]

/-- C3 witness: the mirror rule evaluated on a concrete reversed credit
and a concrete one-transaction system. -/
theorem admin_mirror_rule_witness :
    adminMovement ⟨"t2", "c2", TransactionType.Credit, 45, 45, 2, true⟩ =
      specMirrorMovement ⟨"t2", "c2", TransactionType.Credit, 45, 45, 2, true⟩ ∧
    (adminLedger [⟨"t1", "c1", TransactionType.Debit, 50, 50, 1, false⟩]
        100 none).entries.map Prod.fst =
      sortedByDate [⟨"t1", "c1", TransactionType.Debit, 50, 50, 1, false⟩] :=
  ⟨admin_mirror_rule.1 _, (admin_mirror_rule.2 _ 100).1⟩

/-- C7: marking a transaction reversed never removes it from a ledger
view: the entries of the forward-replay client ledger are exactly the
in-period transactions, reversed or not; and a reversed transaction has
zero signed effect and zero mirrored movement, leaves the running
balance unchanged at its replay step, and contributes nothing to the
period credit and debit totals. -/
theorem reversed_kept_with_zero_effect :
    (∀ (transactions : List Transaction) (clientId : String)
        (range : Option DateRange),
      (financialLedger transactions clientId range).entries.map Prod.fst =
        transactionsInPeriod (allClientTxs transactions clientId) range) ∧
    (∀ tx : Transaction, tx.isReversed = true →
      signedEffect tx = 0 ∧ adminMovement tx = 0 ∧
      (∀ (opening : ℚ) (l : List Transaction),
        replayMovements signedEffect opening (tx :: l) =
          (tx, opening) :: replayMovements signedEffect opening l) ∧
      (∀ l : List Transaction,
        totalCreditOf (tx :: l) = totalCreditOf l ∧
        totalDebitOf (tx :: l) = totalDebitOf l)) := by
  constructor
  · intro transactions clientId range
    simp [financialLedger, replayMovements_map_fst]
  · intro tx hrev
    have heff : signedEffect tx = 0 := by
      rcases htype : tx.type <;> simp [signedEffect, amountEffect, htype, hrev]
    have hadm : adminMovement tx = 0 := by
      rcases htype : tx.type <;> simp [adminMovement, htype, hrev]
    refine ⟨heff, hadm, ?_, ?_⟩
    · intro opening l
      simp [replayMovements, heff]
    · intro l
      constructor <;>
        simp [totalCreditOf, totalDebitOf, List.filter_cons, hrev]

/-- C7 witness: the reversed-entry facts evaluated on a concrete
reversed credit and a concrete one-period ledger that retains it. -/
theorem reversed_kept_with_zero_effect_witness :
    ((financialLedger
        [⟨"t3", "c1", TransactionType.Credit, 45, 115, 3, true⟩]
        "c1" (some ⟨1, 9⟩)).entries.map Prod.fst =
      transactionsInPeriod
        (allClientTxs
          [⟨"t3", "c1", TransactionType.Credit, 45, 115, 3, true⟩] "c1")
        (some ⟨1, 9⟩)) ∧
    ((⟨"t3", "c1", TransactionType.Credit, 45, 115, 3, true⟩ :
        Transaction).isReversed = true ∧
      signedEffect ⟨"t3", "c1", TransactionType.Credit, 45, 115, 3, true⟩ = 0) :=
  ⟨reversed_kept_with_zero_effect.1 _ "c1" (some ⟨1, 9⟩),
   rfl,
   (reversed_kept_with_zero_effect.2 _ rfl).1⟩

/-- C2: the forward-replay client ledger view determines a ranged
opening balance from the stored balance-after snapshot of the last
transaction before the period, not by backward reconstruction from the
current wallet balance.  On a client whose only transaction, a credit of
one hundred posted before the period, was later reversed (current true
wallet balance zero), the view opens the period at the stale snapshot
value one hundred while the backward reconstruction mandated by the spec
opens it at zero. -/
theorem ranged_opening_uses_snapshot :
    (financialLedger
        [⟨"t1", "c1", TransactionType.Credit, 100, 100, 10, true⟩]
        "c1" (some ⟨20, 30⟩)).openingBalance = 100 ∧
    signedSum [⟨"t1", "c1", TransactionType.Credit, 100, 100, 10, true⟩] = 0 ∧
    specPeriodOpeningBalance
        (signedSum [⟨"t1", "c1", TransactionType.Credit, 100, 100, 10, true⟩])
        [⟨"t1", "c1", TransactionType.Credit, 100, 100, 10, true⟩]
        ⟨20, 30⟩ = 0 ∧
    (financialLedger
        [⟨"t1", "c1", TransactionType.Credit, 100, 100, 10, true⟩]
        "c1" (some ⟨20, 30⟩)).openingBalance ≠
      specPeriodOpeningBalance
        (signedSum [⟨"t1", "c1", TransactionType.Credit, 100, 100, 10, true⟩])
        [⟨"t1", "c1", TransactionType.Credit, 100, 100, 10, true⟩]
        ⟨20, 30⟩ := by
  refine ⟨?_, ?_, ?_, ?_⟩ <;>
    norm_num [financialLedger, periodOpeningBalance, lastTxBeforePeriod,
      allClientTxs, List.insertionSort, List.orderedInsert, List.filter,
      List.find?, specPeriodOpeningBalance, signedSum, signedEffect,
      amountEffect]

/-- C10: in the wallet-anchored FinancialLedger variant, the corrected
balance displayed for the newest transaction of the selected period is
the current wallet balance itself, for every period filter: the anchor
is applied at the head of the newest-first filtered list before any
effect is undone, so transactions newer than the period end are never
rolled back first. -/
theorem anchored_head_equals_wallet (transactions : List Transaction)
    (clientId : String) (range : Option DateRange) (wallet : ℚ)
    (tx : Transaction) (rest : List Transaction)
    (h : filteredTransactions transactions clientId range = tx :: rest) :
    (detailedTransactions transactions clientId range wallet).head? =
      some (tx, wallet) := by
  simp [detailedTransactions, h, correctedBalances]

/-- C10 witness: a concrete history in which a newer transaction lies
after the period end, yet the newest in-period transaction is displayed
with the current wallet balance unchanged. -/
theorem anchored_head_equals_wallet_witness :
    (filteredTransactions
        [⟨"t1", "c1", TransactionType.Credit, 100, 100, 5, false⟩,
         ⟨"t2", "c1", TransactionType.Debit, 30, 70, 50, false⟩]
        "c1" (some ⟨0, 10⟩) =
      [⟨"t1", "c1", TransactionType.Credit, 100, 100, 5, false⟩]) ∧
    (detailedTransactions
        [⟨"t1", "c1", TransactionType.Credit, 100, 100, 5, false⟩,
         ⟨"t2", "c1", TransactionType.Debit, 30, 70, 50, false⟩]
        "c1" (some ⟨0, 10⟩) 70).head? =
      some (⟨"t1", "c1", TransactionType.Credit, 100, 100, 5, false⟩, 70) :=
  ⟨by simp [filteredTransactions, List.insertionSort, List.orderedInsert,
      List.filter, byDateDesc],
   anchored_head_equals_wallet _ "c1" (some ⟨0, 10⟩) 70 _ []
     (by simp [filteredTransactions, List.insertionSort, List.orderedInsert,
       List.filter, byDateDesc])⟩

/-- C5: a winning bet whose owner and rate table are found settles to a
prize of stake times rate over one hundred exactly when the resolved
rate is positive; a missing or zero resolved rate settles to no entry at
all, an exclusion rather than an error. -/
theorem prize_formula (isWin : Bet → Bool) (clients : List Client)
    (bet : Bet) (client : Client) (rates : PrizeRates)
    (hw : isWin bet = true)
    (hc : clientMapGet clients bet.clientId = some client)
    (hr : client.prizeRates = some rates) :
    (0 < resolveRate rates bet →
      settleBet isWin clients bet =
        some { bet := bet, client := client,
               prizeWon := bet.stake * (resolveRate rates bet / 100) }) ∧
    (resolveRate rates bet ≤ 0 → settleBet isWin clients bet = none) := by
  constructor
  · intro hrate
    simp [settleBet, hw, hc, hr, hrate]
  · intro hrate
    simp [settleBet, hw, hc, hr, not_lt.mpr hrate]

/-- C5 witness: a client whose rate table gives eighty percent for the
single game settles a fifty-stake winning bet to a prize of forty, and
the same client has no positional two-digit entry, so a positional
winning bet settles to nothing. -/
theorem prize_formula_witness :
    (0 : ℚ) <
      resolveRate ⟨[("SINGLE", ⟨some 80, none⟩)], []⟩
        ⟨"b1", "c1", "SINGLE", BettingCondition.First, "34", 50⟩ ∧
    settleBet (fun b => b.number == "34")
        [⟨"c1", "C01", "alice", 395, some ⟨[("SINGLE", ⟨some 80, none⟩)], []⟩⟩]
        ⟨"b1", "c1", "SINGLE", BettingCondition.First, "34", 50⟩ =
      some { bet := ⟨"b1", "c1", "SINGLE", BettingCondition.First, "34", 50⟩,
             client := ⟨"c1", "C01", "alice", 395,
               some ⟨[("SINGLE", ⟨some 80, none⟩)], []⟩⟩,
             prizeWon :=
               (⟨"b1", "c1", "SINGLE", BettingCondition.First, "34", 50⟩ :
                 Bet).stake *
                 (resolveRate ⟨[("SINGLE", ⟨some 80, none⟩)], []⟩
                     ⟨"b1", "c1", "SINGLE", BettingCondition.First, "34", 50⟩ /
                   100) } ∧
    settleBet (fun b => b.number == "34")
        [⟨"c1", "C01", "alice", 395, some ⟨[("SINGLE", ⟨some 80, none⟩)], []⟩⟩]
        ⟨"b2", "c1", "POSITIONAL", BettingCondition.First, "34", 50⟩ = none :=
  ⟨by
    simp only [resolveRate, positionalGameType]
    rw [if_neg (by decide)]
    norm_num [rateForCondition, List.find?],
   (prize_formula (fun b => b.number == "34") _ _ _ _
       (by simp)
       (by simp [clientMapGet, List.find?])
       rfl).1
     (by
       simp only [resolveRate, positionalGameType]
       rw [if_neg (by decide)]
       norm_num [rateForCondition, List.find?]),
   (prize_formula (fun b => b.number == "34") _ _
       ⟨"c1", "C01", "alice", 395, some ⟨[("SINGLE", ⟨some 80, none⟩)], []⟩⟩
       ⟨[("SINGLE", ⟨some 80, none⟩)], []⟩
       (by simp)
       (by simp [clientMapGet, List.find?])
       rfl).2
     (by
       simp only [resolveRate, positionalGameType]
       rw [if_pos (by decide)]
       norm_num [rateForCondition, List.find?])⟩

/-- C6: for a bet of the positional game type the winners report
resolves the rate from the positional table keyed by the digit count of
the chosen number together with the condition; two positional bets with
the same digit count and the same condition always resolve the same
rate, whatever their number strings are. -/
theorem positional_rate_by_digit_count (rates : PrizeRates) (bet : Bet)
    (h : bet.gameType = positionalGameType) :
    resolveRate rates bet =
      positionalRateFor rates (digitCount bet.number) bet.condition ∧
    (∀ bet2 : Bet, bet2.gameType = positionalGameType →
      digitCount bet2.number = digitCount bet.number →
      bet2.condition = bet.condition →
      resolveRate rates bet2 = resolveRate rates bet) := by
  have main : ∀ b : Bet, b.gameType = positionalGameType →
      resolveRate rates b =
        positionalRateFor rates (digitCount b.number) b.condition := by
    intro b hb
    simp [resolveRate, positionalRateFor, hb]
  refine ⟨main bet h, ?_⟩
  intro bet2 h2 hd hcond
  rw [main bet2 h2, main bet h, hd, hcond]

/-- C6 witness: a positional rate table with a two-digit entry of
seventy-five percent resolves that rate both for the number string with
non-digit characters and for a plain two-digit number, under the same
condition. -/
theorem positional_rate_by_digit_count_witness :
    resolveRate ⟨[], [(2, ⟨some 75, some 25⟩)]⟩
        ⟨"b1", "c1", "POSITIONAL", BettingCondition.First, "1X2", 10⟩ =
      positionalRateFor ⟨[], [(2, ⟨some 75, some 25⟩)]⟩
        (digitCount "1X2") BettingCondition.First ∧
    resolveRate ⟨[], [(2, ⟨some 75, some 25⟩)]⟩
        ⟨"b2", "c1", "POSITIONAL", BettingCondition.First, "34", 10⟩ =
      resolveRate ⟨[], [(2, ⟨some 75, some 25⟩)]⟩
        ⟨"b1", "c1", "POSITIONAL", BettingCondition.First, "1X2", 10⟩ :=
  ⟨(positional_rate_by_digit_count _ _ rfl).1,
   (positional_rate_by_digit_count _
       ⟨"b1", "c1", "POSITIONAL", BettingCondition.First, "1X2", 10⟩ rfl).2
     ⟨"b2", "c1", "POSITIONAL", BettingCondition.First, "34", 10⟩ rfl
     (by decide) rfl⟩

/-! Helper lemmas about the grouping fold of the grouped winners report. -/

/-- The client ids of a group list, in order. -/
def groupIds (groups : List GroupedWinner) : List String :=
  groups.map (fun g => g.client.id)

theorem updateGroup_client (w : WinningBetDetail) (g : GroupedWinner) :
    (updateGroup w g).client = g.client := by
  unfold updateGroup
  split <;> rfl

theorem groupIds_map_update (w : WinningBetDetail)
    (groups : List GroupedWinner) :
    groupIds (groups.map (updateGroup w)) = groupIds groups := by
  simp only [groupIds, List.map_map]
  exact List.map_congr_left (fun g _ => by
    simp [Function.comp, updateGroup_client])

theorem mem_groupIds_of_any (groups : List GroupedWinner) (w : WinningBetDetail)
    (h : groups.any (fun g => g.client.id == w.client.id) = true) :
    w.client.id ∈ groupIds groups := by
  rcases List.any_eq_true.mp h with ⟨g, hg, hid⟩
  have : g.client.id = w.client.id := by simpa using hid
  exact this ▸ List.mem_map_of_mem (fun g => g.client.id) hg

theorem not_mem_groupIds_of_any_false (groups : List GroupedWinner)
    (w : WinningBetDetail)
    (h : groups.any (fun g => g.client.id == w.client.id) = false) :
    w.client.id ∉ groupIds groups := by
  intro hmem
  rcases List.mem_map.mp hmem with ⟨g, hg, hid⟩
  have := List.any_eq_false.mp h g hg
  simp [hid] at this

theorem addToGroups_ids_nodup (groups : List GroupedWinner)
    (w : WinningBetDetail) (h : (groupIds groups).Nodup) :
    (groupIds (addToGroups groups w)).Nodup := by
  unfold addToGroups
  rcases hany : groups.any (fun g => g.client.id == w.client.id) with _ | _
  · simp only [Bool.false_eq_true, if_false]
    have hnot := not_mem_groupIds_of_any_false groups w hany
    simp only [groupIds, List.map_append, List.map_cons, List.map_nil]
    rw [List.nodup_append]
    refine ⟨h, List.nodup_singleton _, ?_⟩
    intro a ha hb
    simp only [List.mem_singleton] at hb
    exact hnot (by simpa [groupIds, hb] using ha)
  · simp only [if_true]
    rw [groupIds_map_update]
    exact h

theorem addToGroups_ids_mem (groups : List GroupedWinner)
    (w : WinningBetDetail) (i : String) :
    i ∈ groupIds (addToGroups groups w) ↔
      i = w.client.id ∨ i ∈ groupIds groups := by
  unfold addToGroups
  rcases hany : groups.any (fun g => g.client.id == w.client.id) with _ | _
  · simp only [Bool.false_eq_true, if_false]
    simp [groupIds, List.map_append, or_comm]
  · simp only [if_true]
    rw [groupIds_map_update]
    have hw := mem_groupIds_of_any groups w hany
    constructor
    · intro hi
      exact Or.inr hi
    · rintro (rfl | hi)
      · exact hw
      · exact hi

theorem addToGroups_totals (groups : List GroupedWinner)
    (w : WinningBetDetail)
    (h : ∀ g ∈ groups, g.totalWon = (g.bets.map Prod.snd).sum) :
    ∀ g ∈ addToGroups groups w, g.totalWon = (g.bets.map Prod.snd).sum := by
  unfold addToGroups
  rcases hany : groups.any (fun g => g.client.id == w.client.id) with _ | _
  · simp only [Bool.false_eq_true, if_false]
    intro g hg
    rcases List.mem_append.mp hg with hg | hg
    · exact h g hg
    · simp only [List.mem_singleton] at hg
      subst hg
      simp
  · simp only [if_true]
    intro g' hg'
    rcases List.mem_map.mp hg' with ⟨g, hg, rfl⟩
    unfold updateGroup
    split
    · simp [h g hg]
    · exact h g hg

theorem flatten_map_update (w : WinningBetDetail) :
    ∀ groups : List GroupedWinner, (groupIds groups).Nodup →
      groups.any (fun g => g.client.id == w.client.id) = true →
      ((groups.map (updateGroup w)).map (fun g => g.bets)).flatten.Perm
        ((groups.map (fun g => g.bets)).flatten ++ [(w.bet, w.prizeWon)]) := by
  intro groups
  induction groups with
  | nil => intro _ hany; simp at hany
  | cons g gs ih =>
    intro hnodup hany
    have hnodup2 : (groupIds gs).Nodup := by
      simpa [groupIds] using hnodup.of_cons
    by_cases hg : g.client.id = w.client.id
    · have hrest : gs.map (updateGroup w) = gs := by
        have hnotin : g.client.id ∉ groupIds gs := by
          simp only [groupIds, List.map_cons] at hnodup
          exact (List.nodup_cons.mp hnodup).1
        have : ∀ g2 ∈ gs, updateGroup w g2 = g2 := by
          intro g2 hg2
          have hne : g2.client.id ≠ w.client.id := by
            intro heq
            exact hnotin (hg ▸ heq ▸
              List.mem_map_of_mem (fun g => g.client.id) hg2)
          unfold updateGroup
          simp [hne]
        calc gs.map (updateGroup w) = gs.map id := List.map_congr_left
              (fun a ha => this a ha)
          _ = gs := List.map_id gs
      have hgup : updateGroup w g =
          { client := g.client, totalWon := g.totalWon + w.prizeWon,
            bets := g.bets ++ [(w.bet, w.prizeWon)] } := by
        unfold updateGroup
        simp [hg]
      simp only [List.map_cons, hrest, hgup, List.flatten_cons]
      rw [List.append_assoc, List.append_assoc]
      exact List.perm_append_comm.append_left g.bets
    · have hgup : updateGroup w g = g := by
        unfold updateGroup
        simp [hg]
      have hany2 : gs.any (fun g => g.client.id == w.client.id) = true := by
        simp only [List.any_cons] at hany
        rcases Bool.or_eq_true_iff.mp hany with h1 | h2
        · exact absurd (by simpa using h1) hg
        · exact h2
      have hperm := ih hnodup2 hany2
      simp only [List.map_cons, hgup, List.flatten_cons]
      rw [List.append_assoc]
      exact hperm.append_left g.bets

theorem addToGroups_flatten (groups : List GroupedWinner)
    (w : WinningBetDetail) (h : (groupIds groups).Nodup) :
    ((addToGroups groups w).map (fun g => g.bets)).flatten.Perm
      ((groups.map (fun g => g.bets)).flatten ++ [(w.bet, w.prizeWon)]) := by
  unfold addToGroups
  rcases hany : groups.any (fun g => g.client.id == w.client.id) with _ | _
  · simp only [Bool.false_eq_true, if_false]
    simp [List.map_append, List.flatten_append]
  · simp only [if_true]
    exact flatten_map_update w groups h hany

theorem foldl_groups_nodup :
    ∀ (ws : List WinningBetDetail) (groups : List GroupedWinner),
      (groupIds groups).Nodup →
      (groupIds (ws.foldl addToGroups groups)).Nodup := by
  intro ws
  induction ws with
  | nil => intro groups h; exact h
  | cons w rest ih =>
    intro groups h
    exact ih (addToGroups groups w) (addToGroups_ids_nodup groups w h)

theorem foldl_groups_mem :
    ∀ (ws : List WinningBetDetail) (groups : List GroupedWinner) (i : String),
      i ∈ groupIds (ws.foldl addToGroups groups) ↔
        i ∈ ws.map (fun w => w.client.id) ∨ i ∈ groupIds groups := by
  intro ws
  induction ws with
  | nil => intro groups i; simp
  | cons w rest ih =>
    intro groups i
    rw [List.foldl_cons, ih (addToGroups groups w) i,
      addToGroups_ids_mem groups w i]
    simp only [List.map_cons, List.mem_cons]
    tauto

theorem foldl_groups_totals :
    ∀ (ws : List WinningBetDetail) (groups : List GroupedWinner),
      (∀ g ∈ groups, g.totalWon = (g.bets.map Prod.snd).sum) →
      ∀ g ∈ ws.foldl addToGroups groups,
        g.totalWon = (g.bets.map Prod.snd).sum := by
  intro ws
  induction ws with
  | nil => intro groups h; exact h
  | cons w rest ih =>
    intro groups h
    exact ih (addToGroups groups w) (addToGroups_totals groups w h)

theorem foldl_groups_flatten :
    ∀ (ws : List WinningBetDetail) (groups : List GroupedWinner),
      (groupIds groups).Nodup →
      ((ws.foldl addToGroups groups).map (fun g => g.bets)).flatten.Perm
        ((groups.map (fun g => g.bets)).flatten ++
          ws.map (fun w => (w.bet, w.prizeWon))) := by
  intro ws
  induction ws with
  | nil => intro groups _; simp
  | cons w rest ih =>
    intro groups h
    rw [List.foldl_cons]
    have h1 := ih (addToGroups groups w) (addToGroups_ids_nodup groups w h)
    have h2 := (addToGroups_flatten groups w h).append_right
      (rest.map (fun w => (w.bet, w.prizeWon)))
    have h3 := h1.trans h2
    rw [List.append_assoc] at h3
    simpa using h3

/-- C8: the grouped winners report partitions the prize-bearing bets by
client: the concatenation of the group bet lists is a permutation of the
winners list (each winning bet lies in exactly one group), every group
total is the sum of the prizes of its bets, the group totals sum to the
total payout of the draw, the group bet counts sum to the number of
winning bets, and the number of groups is the number of distinct winning
clients. -/
theorem winners_report_grouping (isWin : Bet → Bool) (clients : List Client)
    (drawBets : List Bet) :
    (((groupedWinners isWin clients drawBets).map
        (fun g => g.totalWon)).sum = totalPayout isWin clients drawBets) ∧
    (((groupedWinners isWin clients drawBets).map
        (fun g => g.bets)).flatten.Perm
      ((winnersData isWin clients drawBets).map
        (fun w => (w.bet, w.prizeWon)))) ∧
    (((groupedWinners isWin clients drawBets).map
        (fun g => g.bets.length)).sum =
      (winnersData isWin clients drawBets).length) ∧
    ((groupedWinners isWin clients drawBets).length =
      ((winnersData isWin clients drawBets).map
        (fun w => w.client.id)).toFinset.card) ∧
    (∀ g ∈ groupedWinners isWin clients drawBets,
      g.totalWon = (g.bets.map Prod.snd).sum) := by
  set ws := winnersData isWin clients drawBets with hws
  set F := ws.foldl addToGroups [] with hF
  have hsort : (groupedWinners isWin clients drawBets).Perm F :=
    List.perm_insertionSort byWonDesc F
  have hnodupF : (groupIds F).Nodup :=
    foldl_groups_nodup ws [] (by simp [groupIds])
  have htotF : ∀ g ∈ F, g.totalWon = (g.bets.map Prod.snd).sum :=
    foldl_groups_totals ws [] (by simp)
  have hflatF : (F.map (fun g => g.bets)).flatten.Perm
      (ws.map (fun w => (w.bet, w.prizeWon))) := by
    have := foldl_groups_flatten ws [] (by simp [groupIds])
    simpa using this
  have hmemF : ∀ i, i ∈ groupIds F ↔ i ∈ ws.map (fun w => w.client.id) := by
    intro i
    have := foldl_groups_mem ws [] i
    simpa [groupIds] using this
  have hflat : ((groupedWinners isWin clients drawBets).map
      (fun g => g.bets)).flatten.Perm
        (ws.map (fun w => (w.bet, w.prizeWon))) :=
    ((hsort.map (fun g => g.bets)).flatten).trans hflatF
  have htot : ∀ g ∈ groupedWinners isWin clients drawBets,
      g.totalWon = (g.bets.map Prod.snd).sum :=
    fun g hg => htotF g (hsort.mem_iff.mp hg)
  refine ⟨?_, hflat, ?_, ?_, htot⟩
  · have h1 : ((groupedWinners isWin clients drawBets).map
        (fun g => g.totalWon)).sum =
          ((groupedWinners isWin clients drawBets).map
            (fun g => (g.bets.map Prod.snd).sum)).sum := by
      rw [List.map_congr_left htot]
    rw [h1]
    have h2 : ((groupedWinners isWin clients drawBets).map
        (fun g => (g.bets.map Prod.snd).sum)).sum =
          ((((groupedWinners isWin clients drawBets).map
            (fun g => g.bets)).flatten.map Prod.snd)).sum := by
      rw [List.map_flatten, List.map_map]
      rw [List.sum_flatten, List.map_map]
      rfl
    rw [h2]
    have h3 := (hflat.map Prod.snd).sum_eq
    rw [h3, List.map_map]
    rfl
  · have h4 := hflat.length_eq
    rw [List.length_flatten, List.map_map, List.length_map] at h4
    exact h4
  · rw [hsort.length_eq]
    have h5 : F.length = (groupIds F).length := by
      simp [groupIds]
    rw [h5, ← List.toFinset_card_of_nodup hnodupF]
    congr 1
    apply Finset.ext
    intro i
    simp only [List.mem_toFinset]
    exact hmemF i

/-- C8 witness: the grouping invariants evaluated on a concrete draw
with three winning bets of two clients: the two groups carry totals of
eighty and forty, summing to the payout of one hundred twenty. -/
theorem winners_report_grouping_witness :
    (((groupedWinners (fun b => b.number == "34")
        [⟨"c1", "C01", "alice", 395, some ⟨[("SINGLE", ⟨some 80, none⟩)], []⟩⟩,
         ⟨"c2", "C02", "bob", 100, some ⟨[("SINGLE", ⟨some 80, none⟩)], []⟩⟩]
        [⟨"b1", "c1", "SINGLE", BettingCondition.First, "34", 50⟩,
         ⟨"b2", "c2", "SINGLE", BettingCondition.First, "34", 50⟩,
         ⟨"b3", "c1", "SINGLE", BettingCondition.First, "34", 50⟩,
         ⟨"b4", "c1", "SINGLE", BettingCondition.First, "77", 50⟩]).map
        (fun g => g.totalWon)).sum =
      totalPayout (fun b => b.number == "34")
        [⟨"c1", "C01", "alice", 395, some ⟨[("SINGLE", ⟨some 80, none⟩)], []⟩⟩,
         ⟨"c2", "C02", "bob", 100, some ⟨[("SINGLE", ⟨some 80, none⟩)], []⟩⟩]
        [⟨"b1", "c1", "SINGLE", BettingCondition.First, "34", 50⟩,
         ⟨"b2", "c2", "SINGLE", BettingCondition.First, "34", 50⟩,
         ⟨"b3", "c1", "SINGLE", BettingCondition.First, "34", 50⟩,
         ⟨"b4", "c1", "SINGLE", BettingCondition.First, "77", 50⟩]) ∧
    ((groupedWinners (fun b => b.number == "34")
        [⟨"c1", "C01", "alice", 395, some ⟨[("SINGLE", ⟨some 80, none⟩)], []⟩⟩,
         ⟨"c2", "C02", "bob", 100, some ⟨[("SINGLE", ⟨some 80, none⟩)], []⟩⟩]
        [⟨"b1", "c1", "SINGLE", BettingCondition.First, "34", 50⟩,
         ⟨"b2", "c2", "SINGLE", BettingCondition.First, "34", 50⟩,
         ⟨"b3", "c1", "SINGLE", BettingCondition.First, "34", 50⟩,
         ⟨"b4", "c1", "SINGLE", BettingCondition.First, "77", 50⟩]).length =
      ((winnersData (fun b => b.number == "34")
        [⟨"c1", "C01", "alice", 395, some ⟨[("SINGLE", ⟨some 80, none⟩)], []⟩⟩,
         ⟨"c2", "C02", "bob", 100, some ⟨[("SINGLE", ⟨some 80, none⟩)], []⟩⟩]
        [⟨"b1", "c1", "SINGLE", BettingCondition.First, "34", 50⟩,
         ⟨"b2", "c2", "SINGLE", BettingCondition.First, "34", 50⟩,
         ⟨"b3", "c1", "SINGLE", BettingCondition.First, "34", 50⟩,
         ⟨"b4", "c1", "SINGLE", BettingCondition.First, "77", 50⟩]).map
        (fun w => w.client.id)).toFinset.card) :=
  ⟨(winners_report_grouping _ _ _).1,
   (winners_report_grouping _ _ _).2.2.2.1⟩

end DDL25
